import Mathlib

/-!
Verification development for the alarm summary engine of the typhos
repository (typhos/alarm.py).

The Python module defines TyphosAlarmBase, a widget base class that tracks
per-address connection and severity state for the signals of attached
devices and reduces them to a single alarm summary.  We embed the module
shallowly: Python dicts become insertion-ordered association lists, the
PyDMChannel objects become records carrying their address and a fresh
numeric identity, and the external side effects (channel connect and
disconnect calls, alarm_changed signal emissions) are recorded in
append-only logs inside the state.
-/

set_option autoImplicit false

namespace Typhos

/-! ## Enumerations (KindLevel, AlarmLevel, ophyd Kind values)

KindLevel and AlarmLevel are plain integer enumerations in the source
(class attributes); ophyd Kind is an IntFlag with omitted = 0b000,
normal = 0b001, config = 0b010, hinted = 0b101.  We embed all of them as
Nat constants. -/

namespace KindLevel
def HINTED : Nat := 0
def NORMAL : Nat := 1
def CONFIG : Nat := 2
def OMITTED : Nat := 3
end KindLevel

namespace AlarmLevel
def NO_ALARM : Nat := 0
def MINOR : Nat := 1
def MAJOR : Nat := 2
def INVALID : Nat := 3
def DISCONNECTED : Nat := 4
end AlarmLevel

namespace Kind
def omitted : Nat := 0
def normal : Nat := 1
def config : Nat := 2
def hinted : Nat := 5
end Kind

/-! ## Device model

Modelled from the spec: the device tree input is "a polymorphic
capability — expose a stable identity, a set of leaf signals, each signal
exposes a stable transport address and a visibility classification".  We
flatten the walk over the tree into the list of leaf signals. -/

structure Signal where
  address : String
  kind : Nat
deriving DecidableEq, Repr

structure Device where
  name : String
  signals : List Signal
deriving DecidableEq, Repr

/-- KIND_FILTERS from alarm.py: a dict from KindLevel to a predicate on a
walk entry.  HINTED accepts kind == Kind.hinted; NORMAL accepts
kind in (Kind.hinted, Kind.normal); CONFIG accepts kind != Kind.omitted;
OMITTED accepts everything.  The dict has exactly the keys 0..3. -/
def KIND_FILTERS (kind_level : Nat) (kind : Nat) : Bool :=
  if kind_level = KindLevel.HINTED then kind == Kind.hinted
  else if kind_level = KindLevel.NORMAL then
    kind == Kind.hinted || kind == Kind.normal
  else if kind_level = KindLevel.CONFIG then kind != Kind.omitted
  else true

/-- Modelled from the spec: get_all_signals_from_device lives in
typhos/utils.py, which is not among the available sources.  Per the spec
(SignalScopeResolver), it enumerates the leaf signals of the device tree
that pass the visibility filter; deterministic in (tree shape, filter). -/
def get_all_signals_from_device (device : Device) (filter_by : Nat → Bool) :
    List Signal :=
  device.signals.filter (fun s => filter_by s.kind)

/-- Modelled from the spec: channel_from_signal lives in typhos/utils.py,
which is not among the available sources.  Per the spec, addresses are
"the transport-level identifiers of leaf signals". -/
def channel_from_signal (sig : Signal) : String :=
  sig.address

/-- The set of addresses in scope for a device at a tier: the composition
used by setup_alarm_config (resolver then address extraction). -/
def resolve (device : Device) (kind_level : Nat) : List String :=
  (get_all_signals_from_device device (KIND_FILTERS kind_level)).map
    channel_from_signal

/-! ## Association lists standing for Python dicts

Python dict semantics: assignment to an existing key replaces the value in
place, assignment to a new key appends it; iteration order is insertion
order. -/

def lookup {β : Type} (l : List (String × β)) (k : String) : Option β :=
  match l with
  | [] => none
  | (k', v) :: rest => if k' = k then some v else lookup rest k

def assocInsert {β : Type} (l : List (String × β)) (k : String) (v : β) :
    List (String × β) :=
  match l with
  | [] => [(k, v)]
  | (k', v') :: rest =>
    if k' = k then (k, v) :: rest else (k', v') :: assocInsert rest k v

def keysOf {β : Type} (l : List (String × β)) : List String :=
  l.map Prod.fst

/-- Python max() over a list of values: raises (none) on an empty
sequence, otherwise returns the maximum. -/
def pyMax : List Nat → Option Nat
  | [] => none
  | x :: xs => some (xs.foldl Nat.max x)

/-! ## The aggregator state

One record for the attributes set in TyphosAlarmBase.__init__, plus the
devices list inherited from TyphosObject and three append-only event logs
standing for the external side effects. -/

/-- A PyDMChannel as created by setup_alarm_config: its address plus an
identity distinguishing distinct Python objects for the same address. -/
structure Channel where
  address : String
  id : Nat
deriving DecidableEq, Repr

structure AlarmState where
  kind_level : Nat
  addr_connected : List (String × Bool)
  addr_severity : List (String × Nat)
  addr_channels : List (String × Channel)
  device_channels : List (String × List Channel)
  alarm_summary : Nat
  devices : List Device
  nextId : Nat
  connectCalls : List Nat
  disconnectCalls : List Nat
  emitted : List Nat
deriving DecidableEq, Repr

/-- TyphosAlarmBase.__init__: hinted tier, empty tracking dicts, summary
starts at DISCONNECTED. -/
def initState : AlarmState :=
  { kind_level := KindLevel.HINTED
    addr_connected := []
    addr_severity := []
    addr_channels := []
    device_channels := []
    alarm_summary := AlarmLevel.DISCONNECTED
    devices := []
    nextId := 0
    connectCalls := []
    disconnectCalls := []
    emitted := [] }

/-! ## Operations translated from alarm.py -/

/-- The list comprehension building PyDMChannel objects: one fresh channel
per address, ids consecutive from the given counter. -/
def mkChannels : List String → Nat → List Channel
  | [], _ => []
  | a :: rest, n => ⟨a, n⟩ :: mkChannels rest (n + 1)

/-- The for-loop at the end of setup_alarm_config: for each channel,
store it in addr_channels, reset addr_connected to False and
addr_severity to INVALID, then call ch.connect(). -/
def connectLoop (st : AlarmState) : List Channel → AlarmState
  | [] => st
  | ch :: rest =>
    connectLoop
      { st with
        addr_channels := assocInsert st.addr_channels ch.address ch
        addr_connected := assocInsert st.addr_connected ch.address false
        addr_severity :=
          assocInsert st.addr_severity ch.address AlarmLevel.INVALID
        connectCalls := st.connectCalls ++ [ch.id] }
      rest

/-- TyphosAlarmBase.setup_alarm_config: resolve the signals of the device
at the current tier, build fresh channels, store the full channel list
under the device name, then run the per-channel loop. -/
def setup_alarm_config (st : AlarmState) (device : Device) : AlarmState :=
  let sigs := get_all_signals_from_device device (KIND_FILTERS st.kind_level)
  let channel_addrs := sigs.map channel_from_signal
  let channels := mkChannels channel_addrs st.nextId
  connectLoop
    { st with
      device_channels := assocInsert st.device_channels device.name channels
      nextId := st.nextId + channels.length }
    channels

/-- Modelled from the spec: TyphosObject.add_device (typhos/utils.py, not
among the available sources) records the attached device; the spec says
attach "records the device→address-set mapping".  Modelled as appending
to the devices list. -/
def base_add_device (st : AlarmState) (device : Device) : AlarmState :=
  { st with devices := st.devices ++ [device] }

/-- TyphosAlarmBase.add_device: super().add_device(device) then
setup_alarm_config(device). -/
def add_device (st : AlarmState) (device : Device) : AlarmState :=
  setup_alarm_config (base_add_device st device) device

/-- TyphosAlarmBase.clear_all_alarm_configs: disconnect every channel in
addr_channels, then reset the four tracking dicts. -/
def clear_all_alarm_configs (st : AlarmState) : AlarmState :=
  { st with
    disconnectCalls :=
      st.disconnectCalls ++ st.addr_channels.map (fun p => p.2.id)
    addr_channels := []
    addr_connected := []
    addr_severity := []
    device_channels := [] }

/-- Modelled from the spec: update_alarm_config calls self.setup_alarms(dev),
a method not defined in the available sources.  Per the spec (setTier),
each attached device is "re-resolve[d] against the new tier, reopen
subscriptions, rebuild ChannelStates" — the behavior of
setup_alarm_config on one device. -/
def setup_alarms (st : AlarmState) (device : Device) : AlarmState :=
  setup_alarm_config st device

/-- TyphosAlarmBase.update_alarm_config: clear everything, then re-run the
per-device setup for every attached device. -/
def update_alarm_config (st : AlarmState) : AlarmState :=
  let st1 := clear_all_alarm_configs st
  st1.devices.foldl setup_alarms st1

/-- The kindLevel property setter: store the new value and rebuild.  The
source has no equality check. -/
def kindLevel_set (st : AlarmState) (kind_level : Nat) : AlarmState :=
  update_alarm_config { st with kind_level := kind_level }

/-- The value new_alarm computed inside update_current_alarm: if not all
connected, DISCONNECTED; else Python max of the severity values (which
raises — none — when the dict is empty). -/
def computed_new_alarm (st : AlarmState) : Option Nat :=
  if st.addr_connected.all (fun p => p.2) then
    pyMax (st.addr_severity.map (fun p => p.2))
  else some AlarmLevel.DISCONNECTED

/-- TyphosAlarmBase.update_current_alarm: compute new_alarm, emit
alarm_changed iff it differs from the stored summary, then store it.
Returns none when Python max raises on an empty severity dict. -/
def update_current_alarm (st : AlarmState) : Option AlarmState :=
  match computed_new_alarm st with
  | none => none
  | some na =>
    some
      { st with
        emitted :=
          if na ≠ st.alarm_summary then st.emitted ++ [na] else st.emitted
        alarm_summary := na }

/-- TyphosAlarmBase.update_connection: record the connection state for the
address, then recompute. -/
def update_connection (st : AlarmState) (connected : Bool) (addr : String) :
    Option AlarmState :=
  update_current_alarm
    { st with addr_connected := assocInsert st.addr_connected addr connected }

/-- TyphosAlarmBase.update_severity: record the severity for the address,
then recompute. -/
def update_severity (st : AlarmState) (severity : Nat) (addr : String) :
    Option AlarmState :=
  update_current_alarm
    { st with addr_severity := assocInsert st.addr_severity addr severity }

/-! ## Fallible attach (for the error-handling analysis)

The per-channel loop with an oracle saying which addresses the transport
accepts.  The source loop has no exception handling: if ch.connect()
raises, the three dict assignments of that iteration have already
happened, the loop aborts, and the exception propagates out of
setup_alarm_config and add_device.  The error value carries the state as
mutated up to the raise. -/

def connectLoopF (ok : String → Bool) (st : AlarmState) :
    List Channel → Except AlarmState AlarmState
  | [] => Except.ok st
  | ch :: rest =>
    let st1 :=
      { st with
        addr_channels := assocInsert st.addr_channels ch.address ch
        addr_connected := assocInsert st.addr_connected ch.address false
        addr_severity :=
          assocInsert st.addr_severity ch.address AlarmLevel.INVALID }
    if ok ch.address then
      connectLoopF ok { st1 with connectCalls := st1.connectCalls ++ [ch.id] }
        rest
    else Except.error st1

/-- setup_alarm_config when ch.connect() may raise. -/
def setup_alarm_config_f (ok : String → Bool) (st : AlarmState)
    (device : Device) : Except AlarmState AlarmState :=
  let sigs := get_all_signals_from_device device (KIND_FILTERS st.kind_level)
  let channel_addrs := sigs.map channel_from_signal
  let channels := mkChannels channel_addrs st.nextId
  connectLoopF ok
    { st with
      device_channels := assocInsert st.device_channels device.name channels
      nextId := st.nextId + channels.length }
    channels

/-- add_device when ch.connect() may raise. -/
def add_device_f (ok : String → Bool) (st : AlarmState) (device : Device) :
    Except AlarmState AlarmState :=
  setup_alarm_config_f ok (base_add_device st device) device

/-! ## Concrete devices and states used in witnesses and counterexamples -/

/-- A device with a single hinted signal at address pva. -/
def devA : Device := ⟨"motor", [⟨"pva", 5⟩]⟩

/-- A second device sharing the address pva. -/
def devB : Device := ⟨"pump", [⟨"pva", 5⟩]⟩

/-- A device with three hinted signals; the middle address is pva. -/
def devPAQ : Device := ⟨"gauge", [⟨"pvp", 5⟩, ⟨"pva", 5⟩, ⟨"pvq", 5⟩]⟩

/-- The aggregator right after attaching devA. -/
def stA : AlarmState := add_device initState devA

/-- stA after the pva channel reported connected (summary becomes INVALID,
the reset severity). -/
def stAConn : AlarmState := (update_connection stA true "pva").getD initState

/-- stA after also attaching devB, which shares the address pva. -/
def stAB : AlarmState := add_device stA devB

/-- A state whose three channels are all connected with severities
NO_ALARM, MAJOR, MINOR. -/
def wSev : AlarmState :=
  { initState with
    addr_connected := [("a", true), ("b", true), ("c", true)]
    addr_severity := [("a", AlarmLevel.NO_ALARM), ("b", AlarmLevel.MAJOR),
      ("c", AlarmLevel.MINOR)] }

/-- The state produced by a recompute on wSev. -/
def wSevOut : AlarmState :=
  { wSev with
    emitted := wSev.emitted ++ [AlarmLevel.MAJOR]
    alarm_summary := AlarmLevel.MAJOR }

/-- A state with one connected and one disconnected channel. -/
def wDisc : AlarmState :=
  { initState with
    addr_connected := [("a", true), ("b", false)]
    addr_severity := [("a", AlarmLevel.MINOR), ("b", AlarmLevel.NO_ALARM)] }

/-- A transport oracle that rejects exactly the address pva. -/
def okNotA : String → Bool := fun s => s != "pva"

/-- The result of attaching devPAQ when the transport rejects pva. -/
def c7res : Except AlarmState AlarmState :=
  add_device_f okNotA initState devPAQ

/-- Whether an Except result is an error. -/
def isErrorE : Except AlarmState AlarmState → Bool
  | Except.error _ => true
  | Except.ok _ => false

/-- The state carried by an Except result. -/
def errStateOf : Except AlarmState AlarmState → AlarmState
  | Except.error e => e
  | Except.ok e => e

end Typhos

namespace Typhos

/-! ## Association-list lemmas -/

theorem lookup_eq_none {β : Type} (l : List (String × β)) (k : String)
    (h : k ∉ keysOf l) : lookup l k = none := by
  induction l with
  | nil => rfl
  | cons p rest ih =>
    simp only [keysOf, List.map_cons, List.mem_cons] at h
    push_neg at h
    simp only [lookup]
    rw [if_neg (fun hh => h.1 hh.symm)]
    exact ih (by simpa [keysOf] using h.2)

theorem lookup_insert_self {β : Type} (l : List (String × β)) (k : String)
    (v : β) : lookup (assocInsert l k v) k = some v := by
  induction l with
  | nil => simp [assocInsert, lookup]
  | cons p rest ih =>
    by_cases h : p.1 = k
    · simp [assocInsert, lookup, h]
    · simp [assocInsert, lookup, h, ih]

theorem lookup_insert_ne {β : Type} (l : List (String × β)) (k k' : String)
    (v : β) (h : k' ≠ k) : lookup (assocInsert l k v) k' = lookup l k' := by
  have hkk : ¬ k = k' := fun hh => h hh.symm
  induction l with
  | nil =>
    simp only [assocInsert, lookup]
    rw [if_neg hkk]
  | cons p rest ih =>
    by_cases hp : p.1 = k
    · simp only [assocInsert, if_pos hp, lookup]
      rw [if_neg hkk, if_neg (fun hh => hkk (hp.symm.trans hh))]
    · simp only [assocInsert, if_neg hp, lookup]
      by_cases hp' : p.1 = k'
      · rw [if_pos hp', if_pos hp']
      · rw [if_neg hp', if_neg hp', ih]

theorem mem_keysOf_insert {β : Type} (l : List (String × β)) (k k' : String)
    (v : β) : k' ∈ keysOf (assocInsert l k v) ↔ k' ∈ keysOf l ∨ k' = k := by
  induction l with
  | nil => simp [assocInsert, keysOf]
  | cons p rest ih =>
    by_cases hp : p.1 = k
    · subst hp
      simp [assocInsert, keysOf]
      tauto
    · simp only [assocInsert, if_neg hp, keysOf, List.map_cons, List.mem_cons]
      rw [keysOf] at ih
      rw [ih]
      tauto

theorem keysOf_insert_of_mem {β : Type} (l : List (String × β)) (k : String)
    (v : β) (h : k ∈ keysOf l) : keysOf (assocInsert l k v) = keysOf l := by
  induction l with
  | nil => simp [keysOf] at h
  | cons p rest ih =>
    by_cases hp : p.1 = k
    · simp [assocInsert, if_pos hp, keysOf, hp]
    · simp only [keysOf, List.map_cons, List.mem_cons] at h
      rcases h with h | h
      · exact absurd h.symm hp
      · have h2 := ih (by simpa [keysOf] using h)
        simp only [keysOf, List.map_cons] at h2 ⊢
        simp only [assocInsert, if_neg hp, List.map_cons]
        rw [h2]

theorem insert_all_values {β : Type} (l : List (String × β)) (k : String)
    (v : β) (P : β → Prop) (hl : ∀ p ∈ l, P p.2) (hv : P v) :
    ∀ p ∈ assocInsert l k v, P p.2 := by
  induction l with
  | nil =>
    intro p hp
    simp [assocInsert] at hp
    rw [hp]
    exact hv
  | cons q rest ih =>
    intro p hp
    by_cases hq : q.1 = k
    · simp only [assocInsert, if_pos hq, List.mem_cons] at hp
      rcases hp with hp | hp
      · rw [hp]; exact hv
      · exact hl p (List.mem_cons_of_mem q hp)
    · simp only [assocInsert, if_neg hq, List.mem_cons] at hp
      rcases hp with hp | hp
      · rw [hp]; exact hl q (List.mem_cons_self q rest)
      · exact ih (fun r hr => hl r (List.mem_cons_of_mem q hr)) p hp

theorem lookup_of_mem_const {β : Type} (l : List (String × β)) (k : String)
    (v : β) (hk : k ∈ keysOf l) (hall : ∀ p ∈ l, p.2 = v) :
    lookup l k = some v := by
  induction l with
  | nil => simp [keysOf] at hk
  | cons p rest ih =>
    simp only [keysOf, List.map_cons, List.mem_cons] at hk
    simp only [lookup]
    by_cases hp : p.1 = k
    · rw [if_pos hp, hall p (List.mem_cons_self p rest)]
    · rw [if_neg hp]
      rcases hk with hk | hk
      · exact absurd hk.symm hp
      · exact ih (by simpa [keysOf] using hk)
          (fun r hr => hall r (List.mem_cons_of_mem p hr))

/-! ## Python max lemmas -/

theorem nat_max_or (x y : Nat) : Nat.max x y = x ∨ Nat.max x y = y := by
  by_cases h : x ≤ y
  · right
    exact Nat.max_eq_right h
  · left
    exact Nat.max_eq_left (Nat.le_of_not_le h)

theorem foldl_max_spec (xs : List Nat) (x : Nat) :
    xs.foldl Nat.max x ∈ x :: xs ∧ ∀ v ∈ x :: xs, v ≤ xs.foldl Nat.max x := by
  induction xs generalizing x with
  | nil => simp
  | cons y ys ih =>
    obtain ⟨hmem, hle⟩ := ih (Nat.max x y)
    constructor
    · simp only [List.foldl_cons]
      rcases List.mem_cons.mp hmem with h | h
      · rw [h]
        rcases nat_max_or x y with hm | hm <;> rw [hm]
        · exact List.mem_cons_self x (y :: ys)
        · exact List.mem_cons_of_mem x (List.mem_cons_self y ys)
      · exact List.mem_cons_of_mem x (List.mem_cons_of_mem y h)
    · intro v hv
      simp only [List.foldl_cons]
      have hxb := hle (Nat.max x y) (List.mem_cons_self _ ys)
      rcases List.mem_cons.mp hv with h | h
      · subst h
        exact le_trans (Nat.le_max_left v y) hxb
      · rcases List.mem_cons.mp h with h' | h'
        · subst h'
          exact le_trans (Nat.le_max_right x v) hxb
        · exact hle v (List.mem_cons_of_mem _ h')

theorem pyMax_spec (l : List Nat) (h : l ≠ []) :
    ∃ m, pyMax l = some m ∧ m ∈ l ∧ ∀ v ∈ l, v ≤ m := by
  match l with
  | [] => exact absurd rfl h
  | x :: xs =>
    obtain ⟨hmem, hle⟩ := foldl_max_spec xs x
    exact ⟨xs.foldl Nat.max x, rfl, hmem, hle⟩

/-! ## Lemmas about the channel-construction comprehension -/

theorem mkChannels_map_address (addrs : List String) (n : Nat) :
    (mkChannels addrs n).map Channel.address = addrs := by
  induction addrs generalizing n with
  | nil => rfl
  | cons a rest ih => simp [mkChannels, ih]

theorem mkChannels_length (addrs : List String) (n : Nat) :
    (mkChannels addrs n).length = addrs.length := by
  induction addrs generalizing n with
  | nil => rfl
  | cons a rest ih => simp [mkChannels, ih]

theorem mem_mkChannels (c : Channel) (addrs : List String) (n : Nat)
    (h : c ∈ mkChannels addrs n) : c.address ∈ addrs ∧ n ≤ c.id := by
  induction addrs generalizing n with
  | nil => simp [mkChannels] at h
  | cons a rest ih =>
    rcases List.mem_cons.mp h with h' | h'
    · rw [h']
      exact ⟨List.mem_cons_self a rest, Nat.le_refl n⟩
    · obtain ⟨h1, h2⟩ := ih (n + 1) h'
      exact ⟨List.mem_cons_of_mem a h1, Nat.le_of_succ_le h2⟩

theorem mkChannels_append (xs ys : List String) (n : Nat) :
    mkChannels (xs ++ ys) n =
      mkChannels xs n ++ mkChannels ys (n + xs.length) := by
  induction xs generalizing n with
  | nil => simp [mkChannels]
  | cons a rest ih =>
    have harith : n + (rest.length + 1) = n + 1 + rest.length := by omega
    calc mkChannels ((a :: rest) ++ ys) n
        = Channel.mk a n :: mkChannels (rest ++ ys) (n + 1) := rfl
      _ = Channel.mk a n ::
            (mkChannels rest (n + 1) ++ mkChannels ys (n + 1 + rest.length)) := by
          rw [ih]
      _ = mkChannels (a :: rest) n ++ mkChannels ys (n + (a :: rest).length) := by
          rw [List.length_cons, harith]
          rfl

/-! ## Lemmas about the per-channel setup loop -/

theorem connectLoop_fields (st : AlarmState) (chs : List Channel) :
    (connectLoop st chs).kind_level = st.kind_level ∧
    (connectLoop st chs).alarm_summary = st.alarm_summary ∧
    (connectLoop st chs).emitted = st.emitted ∧
    (connectLoop st chs).disconnectCalls = st.disconnectCalls ∧
    (connectLoop st chs).devices = st.devices ∧
    (connectLoop st chs).device_channels = st.device_channels ∧
    (connectLoop st chs).nextId = st.nextId := by
  induction chs generalizing st with
  | nil => exact ⟨rfl, rfl, rfl, rfl, rfl, rfl, rfl⟩
  | cons ch rest ih =>
    simp only [connectLoop]
    exact ih _

theorem connectLoop_connectCalls (st : AlarmState) (chs : List Channel) :
    (connectLoop st chs).connectCalls =
      st.connectCalls ++ chs.map (fun c => c.id) := by
  induction chs generalizing st with
  | nil => simp [connectLoop]
  | cons ch rest ih =>
    simp only [connectLoop, List.map_cons]
    rw [ih]
    simp

theorem connectLoop_lookup_untouched (st : AlarmState) (chs : List Channel)
    (a : String) (ha : ∀ c ∈ chs, c.address ≠ a) :
    lookup (connectLoop st chs).addr_connected a = lookup st.addr_connected a ∧
    lookup (connectLoop st chs).addr_severity a = lookup st.addr_severity a ∧
    lookup (connectLoop st chs).addr_channels a = lookup st.addr_channels a := by
  induction chs generalizing st with
  | nil => exact ⟨rfl, rfl, rfl⟩
  | cons ch rest ih =>
    simp only [connectLoop]
    have hch : ¬ a = ch.address :=
      fun hh => ha ch (List.mem_cons_self _ _) hh.symm
    obtain ⟨h1, h2, h3⟩ := ih _ (fun c hc => ha c (List.mem_cons_of_mem _ hc))
    refine ⟨?_, ?_, ?_⟩
    · rw [h1]
      exact lookup_insert_ne _ _ _ _ hch
    · rw [h2]
      exact lookup_insert_ne _ _ _ _ hch
    · rw [h3]
      exact lookup_insert_ne _ _ _ _ hch

theorem connectLoop_lookup_reset (st : AlarmState) (chs : List Channel)
    (a : String) :
    (a ∈ chs.map Channel.address ∨ lookup st.addr_connected a = some false →
      lookup (connectLoop st chs).addr_connected a = some false) ∧
    (a ∈ chs.map Channel.address ∨
        lookup st.addr_severity a = some AlarmLevel.INVALID →
      lookup (connectLoop st chs).addr_severity a = some AlarmLevel.INVALID) := by
  induction chs generalizing st with
  | nil =>
    refine ⟨fun h => ?_, fun h => ?_⟩
    · rcases h with h | h
      · simp at h
      · exact h
    · rcases h with h | h
      · simp at h
      · exact h
  | cons ch rest ih =>
    simp only [connectLoop]
    refine ⟨fun h => ?_, fun h => ?_⟩
    · apply (ih _).1
      by_cases hca : ch.address = a
      · right
        subst hca
        exact lookup_insert_self _ _ _
      · rcases h with h | h
        · rw [List.map_cons] at h
          rcases List.mem_cons.mp h with h' | h'
          · exact absurd h'.symm hca
          · left
            exact h'
        · right
          rw [lookup_insert_ne _ _ _ _ (fun hh => hca hh.symm)]
          exact h
    · apply (ih _).2
      by_cases hca : ch.address = a
      · right
        subst hca
        exact lookup_insert_self _ _ _
      · rcases h with h | h
        · rw [List.map_cons] at h
          rcases List.mem_cons.mp h with h' | h'
          · exact absurd h'.symm hca
          · left
            exact h'
        · right
          rw [lookup_insert_ne _ _ _ _ (fun hh => hca hh.symm)]
          exact h

theorem connectLoop_lookup_channel_mem (st : AlarmState) (chs : List Channel)
    (a : String) (ha : a ∈ chs.map Channel.address) :
    ∃ c, c ∈ chs ∧ c.address = a ∧
      lookup (connectLoop st chs).addr_channels a = some c := by
  induction chs generalizing st with
  | nil => simp at ha
  | cons ch rest ih =>
    simp only [connectLoop]
    by_cases hr : a ∈ rest.map Channel.address
    · obtain ⟨c, hc, hca, hl⟩ := ih _ hr
      exact ⟨c, List.mem_cons_of_mem _ hc, hca, hl⟩
    · have hcha : ch.address = a := by
        rw [List.map_cons] at ha
        rcases List.mem_cons.mp ha with h' | h'
        · exact h'.symm
        · exact absurd h' hr
      refine ⟨ch, List.mem_cons_self _ _, hcha, ?_⟩
      have hrest : ∀ c ∈ rest, c.address ≠ a := by
        intro c hc hceq
        exact hr (hceq ▸ List.mem_map_of_mem Channel.address hc)
      obtain ⟨_, _, h3⟩ := connectLoop_lookup_untouched _ rest a hrest
      rw [h3, ← hcha]
      exact lookup_insert_self _ _ _

theorem connectLoop_mem_keys (st : AlarmState) (chs : List Channel)
    (a : String) (h : a ∈ keysOf st.addr_connected ∧
        a ∈ keysOf st.addr_severity ∧ a ∈ keysOf st.addr_channels ∨
      a ∈ chs.map Channel.address) :
    a ∈ keysOf (connectLoop st chs).addr_connected ∧
    a ∈ keysOf (connectLoop st chs).addr_severity ∧
    a ∈ keysOf (connectLoop st chs).addr_channels := by
  induction chs generalizing st with
  | nil =>
    rcases h with h | h
    · exact h
    · simp at h
  | cons ch rest ih =>
    simp only [connectLoop]
    apply ih
    rcases h with ⟨h1, h2, h3⟩ | h
    · left
      exact ⟨(mem_keysOf_insert _ _ _ _).mpr (Or.inl h1),
        (mem_keysOf_insert _ _ _ _).mpr (Or.inl h2),
        (mem_keysOf_insert _ _ _ _).mpr (Or.inl h3)⟩
    · rw [List.map_cons] at h
      rcases List.mem_cons.mp h with h' | h'
      · left
        exact ⟨(mem_keysOf_insert _ _ _ _).mpr (Or.inr h'),
          (mem_keysOf_insert _ _ _ _).mpr (Or.inr h'),
          (mem_keysOf_insert _ _ _ _).mpr (Or.inr h')⟩
      · right
        exact h'

theorem connectLoop_keys_stable (st : AlarmState) (chs : List Channel)
    (h : ∀ a ∈ chs.map Channel.address,
      a ∈ keysOf st.addr_connected ∧ a ∈ keysOf st.addr_severity ∧
        a ∈ keysOf st.addr_channels) :
    keysOf (connectLoop st chs).addr_connected = keysOf st.addr_connected ∧
    keysOf (connectLoop st chs).addr_severity = keysOf st.addr_severity ∧
    keysOf (connectLoop st chs).addr_channels = keysOf st.addr_channels := by
  induction chs generalizing st with
  | nil => exact ⟨rfl, rfl, rfl⟩
  | cons ch rest ih =>
    simp only [connectLoop]
    obtain ⟨hm1, hm2, hm3⟩ := h ch.address (by simp)
    have e1 := keysOf_insert_of_mem st.addr_connected ch.address false hm1
    have e2 := keysOf_insert_of_mem st.addr_severity ch.address
      AlarmLevel.INVALID hm2
    have e3 := keysOf_insert_of_mem st.addr_channels ch.address ch hm3
    have hrest : ∀ a ∈ rest.map Channel.address,
        a ∈ keysOf (assocInsert st.addr_connected ch.address false) ∧
        a ∈ keysOf (assocInsert st.addr_severity ch.address
          AlarmLevel.INVALID) ∧
        a ∈ keysOf (assocInsert st.addr_channels ch.address ch) := by
      intro a hamem
      obtain ⟨q1, q2, q3⟩ := h a
        (by rw [List.map_cons]; exact List.mem_cons_of_mem _ hamem)
      rw [e1, e2, e3]
      exact ⟨q1, q2, q3⟩
    obtain ⟨g1, g2, g3⟩ := ih
      { st with
        addr_channels := assocInsert st.addr_channels ch.address ch
        addr_connected := assocInsert st.addr_connected ch.address false
        addr_severity :=
          assocInsert st.addr_severity ch.address AlarmLevel.INVALID
        connectCalls := st.connectCalls ++ [ch.id] } hrest
    exact ⟨g1.trans e1, g2.trans e2, g3.trans e3⟩

theorem connectLoop_values_reset (st : AlarmState) (chs : List Channel)
    (h1 : ∀ p ∈ st.addr_connected, p.2 = false)
    (h2 : ∀ p ∈ st.addr_severity, p.2 = AlarmLevel.INVALID) :
    (∀ p ∈ (connectLoop st chs).addr_connected, p.2 = false) ∧
    (∀ p ∈ (connectLoop st chs).addr_severity, p.2 = AlarmLevel.INVALID) := by
  induction chs generalizing st with
  | nil => exact ⟨h1, h2⟩
  | cons ch rest ih =>
    simp only [connectLoop]
    exact ih _
      (insert_all_values st.addr_connected ch.address false
        (fun b => b = false) h1 rfl)
      (insert_all_values st.addr_severity ch.address AlarmLevel.INVALID
        (fun v => v = AlarmLevel.INVALID) h2 rfl)

/-! ## Lemmas about setup_alarm_config -/

theorem setup_channels_def (st : AlarmState) (d : Device) :
    setup_alarm_config st d =
      connectLoop
        { st with
          device_channels := assocInsert st.device_channels d.name
            (mkChannels (resolve d st.kind_level) st.nextId)
          nextId := st.nextId +
            (mkChannels (resolve d st.kind_level) st.nextId).length }
        (mkChannels (resolve d st.kind_level) st.nextId) := rfl

theorem setup_fields (st : AlarmState) (d : Device) :
    (setup_alarm_config st d).kind_level = st.kind_level ∧
    (setup_alarm_config st d).alarm_summary = st.alarm_summary ∧
    (setup_alarm_config st d).emitted = st.emitted ∧
    (setup_alarm_config st d).disconnectCalls = st.disconnectCalls ∧
    (setup_alarm_config st d).devices = st.devices := by
  refine ⟨?_, ?_, ?_, ?_, ?_⟩ <;> rw [setup_channels_def]
  · exact (connectLoop_fields _ _).1
  · exact (connectLoop_fields _ _).2.1
  · exact (connectLoop_fields _ _).2.2.1
  · exact (connectLoop_fields _ _).2.2.2.1
  · exact (connectLoop_fields _ _).2.2.2.2.1

theorem setup_device_channels (st : AlarmState) (d : Device) :
    (setup_alarm_config st d).device_channels =
      assocInsert st.device_channels d.name
        (mkChannels (resolve d st.kind_level) st.nextId) := by
  rw [setup_channels_def]
  exact (connectLoop_fields _ _).2.2.2.2.2.1

theorem setup_connectCalls (st : AlarmState) (d : Device) :
    (setup_alarm_config st d).connectCalls =
      st.connectCalls ++
        (mkChannels (resolve d st.kind_level) st.nextId).map
          (fun c => c.id) := by
  rw [setup_channels_def, connectLoop_connectCalls]

theorem setup_connectCalls_mono (st : AlarmState) (d : Device) (x : Nat)
    (h : x ∈ st.connectCalls) : x ∈ (setup_alarm_config st d).connectCalls := by
  rw [setup_connectCalls]
  exact List.mem_append_left _ h

theorem setup_lookup_reset (st : AlarmState) (d : Device) (a : String)
    (ha : a ∈ resolve d st.kind_level) :
    lookup (setup_alarm_config st d).addr_connected a = some false ∧
    lookup (setup_alarm_config st d).addr_severity a =
      some AlarmLevel.INVALID := by
  rw [setup_channels_def]
  have hmem : a ∈
      (mkChannels (resolve d st.kind_level) st.nextId).map Channel.address := by
    rw [mkChannels_map_address]
    exact ha
  exact ⟨(connectLoop_lookup_reset _ _ _).1 (Or.inl hmem),
    (connectLoop_lookup_reset _ _ _).2 (Or.inl hmem)⟩

theorem setup_fresh_channel (st : AlarmState) (d : Device) (a : String)
    (ha : a ∈ resolve d st.kind_level) :
    ∃ c, lookup (setup_alarm_config st d).addr_channels a = some c ∧
      c.address = a ∧ st.nextId ≤ c.id := by
  rw [setup_channels_def]
  have hmem : a ∈
      (mkChannels (resolve d st.kind_level) st.nextId).map Channel.address := by
    rw [mkChannels_map_address]
    exact ha
  obtain ⟨c, hcmem, hca, hl⟩ := connectLoop_lookup_channel_mem _ _ _ hmem
  exact ⟨c, hl, hca, (mem_mkChannels c _ _ hcmem).2⟩

theorem setup_mem_keys (st : AlarmState) (d : Device) (a : String)
    (h : a ∈ keysOf st.addr_connected ∧ a ∈ keysOf st.addr_severity ∧
        a ∈ keysOf st.addr_channels ∨ a ∈ resolve d st.kind_level) :
    a ∈ keysOf (setup_alarm_config st d).addr_connected ∧
    a ∈ keysOf (setup_alarm_config st d).addr_severity ∧
    a ∈ keysOf (setup_alarm_config st d).addr_channels := by
  rw [setup_channels_def]
  apply connectLoop_mem_keys
  rcases h with h | h
  · left
    exact h
  · right
    rw [mkChannels_map_address]
    exact h

theorem setup_keys_stable (st : AlarmState) (d : Device)
    (h : ∀ a ∈ resolve d st.kind_level,
      a ∈ keysOf st.addr_connected ∧ a ∈ keysOf st.addr_severity ∧
        a ∈ keysOf st.addr_channels) :
    keysOf (setup_alarm_config st d).addr_connected =
      keysOf st.addr_connected ∧
    keysOf (setup_alarm_config st d).addr_severity =
      keysOf st.addr_severity ∧
    keysOf (setup_alarm_config st d).addr_channels =
      keysOf st.addr_channels := by
  rw [setup_channels_def]
  apply connectLoop_keys_stable
  intro a hamem
  rw [mkChannels_map_address] at hamem
  exact h a hamem

theorem setup_values_reset (st : AlarmState) (d : Device)
    (h1 : ∀ p ∈ st.addr_connected, p.2 = false)
    (h2 : ∀ p ∈ st.addr_severity, p.2 = AlarmLevel.INVALID) :
    (∀ p ∈ (setup_alarm_config st d).addr_connected, p.2 = false) ∧
    (∀ p ∈ (setup_alarm_config st d).addr_severity,
      p.2 = AlarmLevel.INVALID) := by
  rw [setup_channels_def]
  exact connectLoop_values_reset _ _ h1 h2

theorem setup_device_channels_other (st : AlarmState) (d : Device)
    (n : String) (h : n ≠ d.name) :
    lookup (setup_alarm_config st d).device_channels n =
      lookup st.device_channels n := by
  rw [setup_device_channels]
  exact lookup_insert_ne _ _ _ _ h

/-! ## Lemmas about the per-device fold of update_alarm_config -/

theorem update_alarm_config_eq (st : AlarmState) :
    update_alarm_config st =
      ((clear_all_alarm_configs st).devices).foldl setup_alarm_config
        (clear_all_alarm_configs st) := rfl

theorem fold_fields (devs : List Device) :
    ∀ s : AlarmState,
      (devs.foldl setup_alarm_config s).kind_level = s.kind_level ∧
      (devs.foldl setup_alarm_config s).alarm_summary = s.alarm_summary ∧
      (devs.foldl setup_alarm_config s).emitted = s.emitted ∧
      (devs.foldl setup_alarm_config s).disconnectCalls = s.disconnectCalls ∧
      (devs.foldl setup_alarm_config s).devices = s.devices := by
  induction devs with
  | nil => exact fun s => ⟨rfl, rfl, rfl, rfl, rfl⟩
  | cons d rest ih =>
    intro s
    simp only [List.foldl_cons]
    obtain ⟨i1, i2, i3, i4, i5⟩ := ih (setup_alarm_config s d)
    obtain ⟨s1, s2, s3, s4, s5⟩ := setup_fields s d
    exact ⟨i1.trans s1, i2.trans s2, i3.trans s3, i4.trans s4, i5.trans s5⟩

theorem fold_connectCalls_mono (devs : List Device) :
    ∀ (s : AlarmState) (x : Nat), x ∈ s.connectCalls →
      x ∈ (devs.foldl setup_alarm_config s).connectCalls := by
  induction devs with
  | nil => exact fun s x h => h
  | cons d rest ih =>
    intro s x h
    simp only [List.foldl_cons]
    exact ih _ x (setup_connectCalls_mono s d x h)

theorem fold_device_other (devs : List Device) :
    ∀ (s : AlarmState) (n : String), n ∉ devs.map Device.name →
      lookup (devs.foldl setup_alarm_config s).device_channels n =
        lookup s.device_channels n := by
  induction devs with
  | nil => exact fun s n _ => rfl
  | cons d rest ih =>
    intro s n h
    rw [List.map_cons] at h
    simp only [List.foldl_cons]
    rw [ih _ n (fun hh => h (List.mem_cons_of_mem _ hh))]
    exact setup_device_channels_other s d n
      (fun hh => h (by rw [hh]; exact List.mem_cons_self _ _))

theorem fold_keys_mono (devs : List Device) :
    ∀ (s : AlarmState) (a : String),
      a ∈ keysOf s.addr_connected ∧ a ∈ keysOf s.addr_severity ∧
        a ∈ keysOf s.addr_channels →
      a ∈ keysOf (devs.foldl setup_alarm_config s).addr_connected ∧
      a ∈ keysOf (devs.foldl setup_alarm_config s).addr_severity ∧
      a ∈ keysOf (devs.foldl setup_alarm_config s).addr_channels := by
  induction devs with
  | nil => exact fun s a h => h
  | cons d rest ih =>
    intro s a h
    simp only [List.foldl_cons]
    exact ih _ a (setup_mem_keys s d a (Or.inl h))

theorem fold_mem_keys (devs : List Device) :
    ∀ (s : AlarmState) (d : Device) (a : String), d ∈ devs →
      a ∈ resolve d s.kind_level →
      a ∈ keysOf (devs.foldl setup_alarm_config s).addr_connected ∧
      a ∈ keysOf (devs.foldl setup_alarm_config s).addr_severity ∧
      a ∈ keysOf (devs.foldl setup_alarm_config s).addr_channels := by
  induction devs with
  | nil =>
    intro s d a hd _
    simp at hd
  | cons d0 rest ih =>
    intro s d a hd ha
    simp only [List.foldl_cons]
    rcases List.mem_cons.mp hd with hdd | hdd
    · subst hdd
      exact fold_keys_mono rest _ a (setup_mem_keys s d a (Or.inr ha))
    · apply ih _ d a hdd
      rw [(setup_fields s d0).1]
      exact ha

theorem fold_values_reset (devs : List Device) :
    ∀ s : AlarmState, (∀ p ∈ s.addr_connected, p.2 = false) →
      (∀ p ∈ s.addr_severity, p.2 = AlarmLevel.INVALID) →
      (∀ p ∈ (devs.foldl setup_alarm_config s).addr_connected, p.2 = false) ∧
      (∀ p ∈ (devs.foldl setup_alarm_config s).addr_severity,
        p.2 = AlarmLevel.INVALID) := by
  induction devs with
  | nil => exact fun s h1 h2 => ⟨h1, h2⟩
  | cons d rest ih =>
    intro s h1 h2
    simp only [List.foldl_cons]
    obtain ⟨g1, g2⟩ := setup_values_reset s d h1 h2
    exact ih _ g1 g2

theorem fold_device_resolved (devs : List Device) :
    ∀ (s : AlarmState) (d : Device), d ∈ devs →
      (devs.map Device.name).Nodup →
      ∃ chs,
        lookup (devs.foldl setup_alarm_config s).device_channels d.name =
          some chs ∧
        chs.map Channel.address = resolve d s.kind_level ∧
        ∀ c ∈ chs, c.id ∈ (devs.foldl setup_alarm_config s).connectCalls := by
  induction devs with
  | nil =>
    intro s d hd _
    simp at hd
  | cons d0 rest ih =>
    intro s d hd hnd
    rw [List.map_cons, List.nodup_cons] at hnd
    simp only [List.foldl_cons]
    rcases List.mem_cons.mp hd with hdd | hdd
    · subst hdd
      refine ⟨mkChannels (resolve d s.kind_level) s.nextId, ?_,
        mkChannels_map_address _ _, ?_⟩
      · rw [fold_device_other rest _ d.name hnd.1, setup_device_channels]
        exact lookup_insert_self _ _ _
      · intro c hc
        apply fold_connectCalls_mono
        rw [setup_connectCalls]
        exact List.mem_append_right _
          (List.mem_map_of_mem (fun c => c.id) hc)
    · obtain ⟨chs, h1, h2, h3⟩ := ih (setup_alarm_config s d0) d hdd hnd.2
      rw [(setup_fields s d0).1] at h2
      exact ⟨chs, h1, h2, h3⟩

/-! ## Claim C1 -/

/-- Claim C1: for a non-empty tracked channel set, the summary recompute
(update_current_alarm) yields DISCONNECTED when any tracked channel has
connected = false, regardless of severities; and when every tracked channel
is connected it yields the maximum severity over all tracked channels. -/
theorem claim_C1 (st : AlarmState) :
    ((∃ p, p ∈ st.addr_connected ∧ p.2 = false) →
      ∃ st', update_current_alarm st = some st' ∧
        st'.alarm_summary = AlarmLevel.DISCONNECTED) ∧
    ((∀ p ∈ st.addr_connected, p.2 = true) → st.addr_severity ≠ [] →
      ∃ st', update_current_alarm st = some st' ∧
        st'.alarm_summary ∈ st.addr_severity.map (fun p => p.2) ∧
        ∀ v ∈ st.addr_severity.map (fun p => p.2), v ≤ st'.alarm_summary) := by
  constructor
  · rintro ⟨p, hp, hfalse⟩
    have hall : st.addr_connected.all (fun q => q.2) = false := by
      rw [List.all_eq_false]
      exact ⟨p, hp, by rw [hfalse]; exact Bool.false_ne_true⟩
    have hcomp : computed_new_alarm st = some AlarmLevel.DISCONNECTED := by
      simp [computed_new_alarm, hall]
    refine ⟨{ st with
        emitted := if AlarmLevel.DISCONNECTED ≠ st.alarm_summary
          then st.emitted ++ [AlarmLevel.DISCONNECTED] else st.emitted
        alarm_summary := AlarmLevel.DISCONNECTED }, ?_, rfl⟩
    simp only [update_current_alarm, hcomp, Option.map_some']
  · intro htrue hne
    have hall : st.addr_connected.all (fun q => q.2) = true := by
      rw [List.all_eq_true]
      intro p hp
      rw [htrue p hp]
    have hne' : st.addr_severity.map (fun p => p.2) ≠ [] := by
      simpa using hne
    obtain ⟨m, hm, hmem, hle⟩ := pyMax_spec _ hne'
    have hcomp : computed_new_alarm st = some m := by
      simp [computed_new_alarm, hall, hm]
    refine ⟨{ st with
        emitted := if m ≠ st.alarm_summary then st.emitted ++ [m]
          else st.emitted
        alarm_summary := m }, ?_, hmem, hle⟩
    simp only [update_current_alarm, hcomp, Option.map_some']

/-- Witness for claim C1 at two concrete states: wSev (all connected,
severities NO_ALARM, MAJOR, MINOR — the recompute yields their maximum)
and wDisc (one channel disconnected — the recompute yields DISCONNECTED). -/
theorem claim_C1_witness :
    ((∀ p ∈ wSev.addr_connected, p.2 = true) ∧ wSev.addr_severity ≠ [] ∧
      (∃ st', update_current_alarm wSev = some st' ∧
        st'.alarm_summary ∈ wSev.addr_severity.map (fun p => p.2) ∧
        ∀ v ∈ wSev.addr_severity.map (fun p => p.2),
          v ≤ st'.alarm_summary)) ∧
    (("b", false) ∈ wDisc.addr_connected ∧
      (∃ st', update_current_alarm wDisc = some st' ∧
        st'.alarm_summary = AlarmLevel.DISCONNECTED)) :=
  ⟨⟨by decide, by decide, (claim_C1 wSev).2 (by decide) (by decide)⟩,
    ⟨by decide, (claim_C1 wDisc).1 ⟨("b", false), by decide, rfl⟩⟩⟩

/-! ## Claim C4 -/

/-- Claim C4 counterexample: the freshly initialised aggregator has an
empty tracked channel set yet its summary is DISCONNECTED, not NO_ALARM. -/
theorem claim_C4_counterexample :
    initState.addr_connected = [] ∧ initState.addr_severity = [] ∧
    initState.alarm_summary = AlarmLevel.DISCONNECTED ∧
    initState.alarm_summary ≠ AlarmLevel.NO_ALARM := by decide

/-- Claim C4 amended: with an empty tracked set the stored summary keeps
its prior value — DISCONNECTED from initialisation — and a recompute on an
empty tracked set fails (Python max of an empty sequence raises) rather
than returning NO_ALARM. -/
theorem claim_C4_amended :
    initState.alarm_summary = AlarmLevel.DISCONNECTED ∧
    ∀ st : AlarmState, st.addr_connected = [] → st.addr_severity = [] →
      update_current_alarm st = none := by
  refine ⟨rfl, ?_⟩
  intro st h1 h2
  simp [update_current_alarm, computed_new_alarm, h1, h2, pyMax]

/-- Witness for the amended claim C4 at the initial state. -/
theorem claim_C4_witness :
    initState.addr_connected = [] ∧ initState.addr_severity = [] ∧
    update_current_alarm initState = none :=
  ⟨rfl, rfl, claim_C4_amended.2 initState rfl rfl⟩

/-! ## Claim C6 -/

/-- Claim C6: whenever a recompute succeeds, alarm_changed is emitted
exactly when the freshly computed value differs from the stored prior
value, and the stored summary becomes the fresh value in both cases. -/
theorem claim_C6 (st st' : AlarmState)
    (h : update_current_alarm st = some st') :
    computed_new_alarm st = some st'.alarm_summary ∧
    (st'.alarm_summary ≠ st.alarm_summary →
      st'.emitted = st.emitted ++ [st'.alarm_summary]) ∧
    (st'.alarm_summary = st.alarm_summary → st'.emitted = st.emitted) := by
  unfold update_current_alarm at h
  cases hc : computed_new_alarm st with
  | none =>
    rw [hc] at h
    simp at h
  | some na =>
    rw [hc] at h
    injection h with h
    subst h
    refine ⟨?_, ?_, ?_⟩
    · rfl
    · intro hne
      show (if na ≠ st.alarm_summary then st.emitted ++ [na] else st.emitted)
        = st.emitted ++ [na]
      rw [if_pos hne]
    · intro heq
      show (if na ≠ st.alarm_summary then st.emitted ++ [na] else st.emitted)
        = st.emitted
      rw [if_neg (fun hn => hn heq)]

/-- Witness for claim C6 at wSev, where the recompute changes the summary
from DISCONNECTED to MAJOR and appends exactly one emission. -/
theorem claim_C6_witness :
    update_current_alarm wSev = some wSevOut ∧
    computed_new_alarm wSev = some wSevOut.alarm_summary ∧
    (wSevOut.alarm_summary ≠ wSev.alarm_summary →
      wSevOut.emitted = wSev.emitted ++ [wSevOut.alarm_summary]) ∧
    (wSevOut.alarm_summary = wSev.alarm_summary →
      wSevOut.emitted = wSev.emitted) :=
  ⟨by decide, claim_C6 wSev wSevOut (by decide)⟩

/-! ## Claim C8 -/

theorem kind_filters_mono (t1 t2 k : Nat) (h12 : t1 < t2)
    (h2 : t2 ≤ KindLevel.OMITTED) (hk : KIND_FILTERS t1 k = true) :
    KIND_FILTERS t2 k = true := by
  have h2' : t2 ≤ 3 := h2
  have h1' : t1 < 3 := by omega
  interval_cases t1 <;> interval_cases t2 <;>
    simp only [KIND_FILTERS, KindLevel.HINTED, KindLevel.NORMAL,
      KindLevel.CONFIG, Kind.hinted, Kind.normal, Kind.omitted] at hk ⊢ <;>
    simp_all <;> omega

/-- Claim C8: the tier filters are nested — every signal accepted at a
lower tier is accepted at any higher tier, so the resolved address set at
tier T1 is contained in the one at tier T2 for T1 < T2. -/
theorem claim_C8 (d : Device) (t1 t2 : Nat) (a : String)
    (h12 : t1 < t2) (h2 : t2 ≤ KindLevel.OMITTED)
    (ha : a ∈ resolve d t1) : a ∈ resolve d t2 := by
  simp only [resolve, get_all_signals_from_device, List.mem_map] at ha ⊢
  obtain ⟨s, hs, hsa⟩ := ha
  rw [List.mem_filter] at hs
  refine ⟨s, ?_, hsa⟩
  rw [List.mem_filter]
  exact ⟨hs.1, kind_filters_mono t1 t2 s.kind h12 h2 hs.2⟩

/-- A device with one signal of each ophyd kind. -/
def wDev8 : Device :=
  ⟨"w8", [⟨"h1", 5⟩, ⟨"n1", 1⟩, ⟨"c1", 2⟩, ⟨"o1", 0⟩]⟩

/-- Witness for claim C8: the address h1 resolved at tier HINTED is also
resolved at tier NORMAL. -/
theorem claim_C8_witness :
    KindLevel.HINTED < KindLevel.NORMAL ∧
    KindLevel.NORMAL ≤ KindLevel.OMITTED ∧
    "h1" ∈ resolve wDev8 KindLevel.HINTED ∧
    "h1" ∈ resolve wDev8 KindLevel.NORMAL :=
  ⟨by decide, by decide, by decide,
    claim_C8 wDev8 KindLevel.HINTED KindLevel.NORMAL "h1" (by decide)
      (by decide) (by decide)⟩

/-! ## Claim C9 -/

/-- Claim C9: attaching the same device twice leaves the tracked address
set (the keys of the three per-address tables) and the summary identical
to attaching it once. -/
theorem claim_C9 (st : AlarmState) (d : Device) :
    keysOf (add_device (add_device st d) d).addr_connected =
      keysOf (add_device st d).addr_connected ∧
    keysOf (add_device (add_device st d) d).addr_severity =
      keysOf (add_device st d).addr_severity ∧
    keysOf (add_device (add_device st d) d).addr_channels =
      keysOf (add_device st d).addr_channels ∧
    (add_device (add_device st d) d).alarm_summary =
      (add_device st d).alarm_summary := by
  have hk : (add_device st d).kind_level = st.kind_level :=
    (setup_fields (base_add_device st d) d).1
  have hmem : ∀ a ∈
      resolve d (base_add_device (add_device st d) d).kind_level,
      a ∈ keysOf (base_add_device (add_device st d) d).addr_connected ∧
      a ∈ keysOf (base_add_device (add_device st d) d).addr_severity ∧
      a ∈ keysOf (base_add_device (add_device st d) d).addr_channels := by
    intro a ha
    have ha' : a ∈ resolve d st.kind_level := by
      rw [show (base_add_device (add_device st d) d).kind_level =
        (add_device st d).kind_level from rfl, hk] at ha
      exact ha
    exact setup_mem_keys (base_add_device st d) d a (Or.inr ha')
  obtain ⟨k1, k2, k3⟩ :=
    setup_keys_stable (base_add_device (add_device st d) d) d hmem
  exact ⟨k1, k2, k3,
    (setup_fields (base_add_device (add_device st d) d) d).2.1⟩

/-! ## Claim C3 -/

/-- Claim C3: a tier change (kindLevel setter) emits no alarm_changed
notification at any point of the rescope — in particular at most one for
the whole transition, and none when the summary value is unchanged (the
emission log is append-only and unchanged across the rescope). -/
theorem claim_C3 (st : AlarmState) (t : Nat) :
    (kindLevel_set st t).emitted = st.emitted ∧
    (kindLevel_set st t).emitted.length ≤ st.emitted.length + 1 ∧
    ((kindLevel_set st t).alarm_summary = st.alarm_summary →
      (kindLevel_set st t).emitted = st.emitted) := by
  have he : (kindLevel_set st t).emitted = st.emitted := by
    show (update_alarm_config { st with kind_level := t }).emitted = st.emitted
    rw [update_alarm_config_eq, (fold_fields _ _).2.2.1]
    rfl
  exact ⟨he, by rw [he]; omega, fun _ => he⟩

/-- Witness for claim C3 at stA with the tier left at HINTED: the summary
is unchanged and no notification is emitted. -/
theorem claim_C3_witness :
    (kindLevel_set stA KindLevel.HINTED).alarm_summary = stA.alarm_summary ∧
    (kindLevel_set stA KindLevel.HINTED).emitted = stA.emitted :=
  ⟨by decide, (claim_C3 stA KindLevel.HINTED).2.2 (by decide)⟩

/-! ## Claim C2 -/

/-- Claim C2 counterexample: setting the tier to its current value (HINTED
on stA) is not a no-op — it closes and reopens the subscription — and the
rescope never recomputes the summary: on stAConn, whose channel is
connected with the stale INVALID severity, a same-tier set resets the
channel to disconnected yet leaves the stored summary at INVALID (a
recompute would have stored DISCONNECTED). -/
theorem claim_C2_counterexample :
    stA.kind_level = KindLevel.HINTED ∧
    kindLevel_set stA KindLevel.HINTED ≠ stA ∧
    (kindLevel_set stA KindLevel.HINTED).disconnectCalls ≠
      stA.disconnectCalls ∧
    (kindLevel_set stAConn KindLevel.HINTED).alarm_summary =
      AlarmLevel.INVALID ∧
    lookup (kindLevel_set stAConn KindLevel.HINTED).addr_connected "pva" =
      some false := by decide

/-- Claim C2 amended: the setter always stores the new tier and performs
the full rescope, even when the new tier equals the current one: every
currently open subscription is closed, every attached device is
re-resolved against the new tier with fresh subscriptions opened, and
every address resolved for an attached device is reset to
(connected = false, severity = INVALID); the rescope does not recompute
the summary — the stored summary and the emission log are unchanged. -/
theorem claim_C2_amended (st : AlarmState) (t : Nat)
    (hnd : (st.devices.map Device.name).Nodup) :
    (kindLevel_set st t).kind_level = t ∧
    (∀ p ∈ st.addr_channels,
      p.2.id ∈ (kindLevel_set st t).disconnectCalls) ∧
    (kindLevel_set st t).alarm_summary = st.alarm_summary ∧
    (kindLevel_set st t).emitted = st.emitted ∧
    (∀ d ∈ st.devices, ∃ chs,
      lookup (kindLevel_set st t).device_channels d.name = some chs ∧
      chs.map Channel.address = resolve d t ∧
      ∀ c ∈ chs, c.id ∈ (kindLevel_set st t).connectCalls) ∧
    (∀ d ∈ st.devices, ∀ a ∈ resolve d t,
      lookup (kindLevel_set st t).addr_connected a = some false ∧
      lookup (kindLevel_set st t).addr_severity a =
        some AlarmLevel.INVALID) := by
  have hfold : kindLevel_set st t =
      ((clear_all_alarm_configs { st with kind_level := t }).devices).foldl
        setup_alarm_config
        (clear_all_alarm_configs { st with kind_level := t }) := rfl
  have hdc : (kindLevel_set st t).disconnectCalls =
      st.disconnectCalls ++ st.addr_channels.map (fun p => p.2.id) := by
    rw [hfold, (fold_fields _ _).2.2.2.1]
    rfl
  refine ⟨?_, ?_, ?_, ?_, ?_, ?_⟩
  · rw [hfold, (fold_fields _ _).1]
    rfl
  · intro p hp
    rw [hdc]
    exact List.mem_append_right _
      (List.mem_map_of_mem (fun q => q.2.id) hp)
  · rw [hfold, (fold_fields _ _).2.1]
    rfl
  · rw [hfold, (fold_fields _ _).2.2.1]
    rfl
  · intro d hd
    rw [hfold]
    exact fold_device_resolved _ _ d hd hnd
  · intro d hd a ha
    rw [hfold]
    have hmem := fold_mem_keys
      ((clear_all_alarm_configs { st with kind_level := t }).devices)
      (clear_all_alarm_configs { st with kind_level := t }) d a hd ha
    obtain ⟨hv1, hv2⟩ := fold_values_reset
      ((clear_all_alarm_configs { st with kind_level := t }).devices)
      (clear_all_alarm_configs { st with kind_level := t })
      (fun p hp => absurd hp (List.not_mem_nil p))
      (fun p hp => absurd hp (List.not_mem_nil p))
    exact ⟨lookup_of_mem_const _ _ _ hmem.1 hv1,
      lookup_of_mem_const _ _ _ hmem.2.1 hv2⟩

/-- Witness for the amended claim C2 at stA with the new tier OMITTED. -/
theorem claim_C2_witness :
    (stA.devices.map Device.name).Nodup ∧
    (kindLevel_set stA KindLevel.OMITTED).kind_level = KindLevel.OMITTED ∧
    (kindLevel_set stA KindLevel.OMITTED).alarm_summary =
      stA.alarm_summary :=
  ⟨by decide, (claim_C2_amended stA KindLevel.OMITTED (by decide)).1,
    (claim_C2_amended stA KindLevel.OMITTED (by decide)).2.2.1⟩

/-! ## Claim C5 -/

/-- Claim C5 counterexample: with pva already open for devA (one connect
call so far), attaching devB — which also resolves to pva — opens a second
subscription for the same address (a second connect call) while the
tracked address set stays the single address, and the first channel is
never disconnected. -/
theorem claim_C5_counterexample :
    keysOf stA.addr_channels = ["pva"] ∧
    stA.connectCalls = [0] ∧
    keysOf stAB.addr_channels = ["pva"] ∧
    stAB.connectCalls = [0, 1] ∧
    stAB.disconnectCalls = [] := by decide

/-- Claim C5 amended: attach opens one new subscription per address
resolved for the device, regardless of whether the address is already open
(there is no reference counting), and attach itself never closes a
subscription; the only teardown, clear_all_alarm_configs, closes every
currently stored subscription exactly once. -/
theorem claim_C5_amended (st : AlarmState) (d : Device)
    (hnd : (st.addr_channels.map (fun p => p.2.id)).Nodup)
    (hfr : ∀ p ∈ st.addr_channels, p.2.id ∉ st.disconnectCalls) :
    (setup_alarm_config st d).connectCalls.length =
      st.connectCalls.length + (resolve d st.kind_level).length ∧
    (setup_alarm_config st d).disconnectCalls = st.disconnectCalls ∧
    ∀ p ∈ st.addr_channels,
      (clear_all_alarm_configs st).disconnectCalls.count p.2.id = 1 := by
  refine ⟨?_, (setup_fields st d).2.2.2.1, ?_⟩
  · rw [setup_connectCalls, List.length_append, List.length_map,
      mkChannels_length]
  · intro p hp
    show (st.disconnectCalls ++
      st.addr_channels.map (fun q => q.2.id)).count p.2.id = 1
    rw [List.count_append]
    have h0 : st.disconnectCalls.count p.2.id = 0 :=
      List.count_eq_zero.mpr (hfr p hp)
    have h1 : (st.addr_channels.map (fun q => q.2.id)).count p.2.id = 1 :=
      List.count_eq_one_of_mem hnd
        (List.mem_map_of_mem (fun q => q.2.id) hp)
    rw [h0, h1]

/-- Witness for the amended claim C5 at stA, attaching devB which shares
the already-open address pva. -/
theorem claim_C5_witness :
    (stA.addr_channels.map (fun p => p.2.id)).Nodup ∧
    (∀ p ∈ stA.addr_channels, p.2.id ∉ stA.disconnectCalls) ∧
    ((setup_alarm_config stA devB).connectCalls.length =
        stA.connectCalls.length + (resolve devB stA.kind_level).length ∧
      (setup_alarm_config stA devB).disconnectCalls = stA.disconnectCalls ∧
      ∀ p ∈ stA.addr_channels,
        (clear_all_alarm_configs stA).disconnectCalls.count p.2.id = 1) :=
  ⟨by decide, by decide, claim_C5_amended stA devB (by decide) (by decide)⟩

/-! ## Claim C10 -/

/-- Claim C10: setup_alarm_config unconditionally resets every resolved
address to (connected = false, severity = INVALID), replaces its channel
table entry with a freshly created channel distinct from every previously
stored one, and performs no disconnect — even when the address is already
tracked (and possibly connected) for a previously attached device. -/
theorem claim_C10 (st : AlarmState) (d : Device) (a : String)
    (ha : a ∈ resolve d st.kind_level)
    (hids : ∀ p ∈ st.addr_channels, p.2.id < st.nextId) :
    lookup (setup_alarm_config st d).addr_connected a = some false ∧
    lookup (setup_alarm_config st d).addr_severity a =
      some AlarmLevel.INVALID ∧
    (∃ c, lookup (setup_alarm_config st d).addr_channels a = some c ∧
      c.address = a ∧ ∀ p ∈ st.addr_channels, p.2 ≠ c) ∧
    (setup_alarm_config st d).disconnectCalls = st.disconnectCalls := by
  obtain ⟨hc1, hc2⟩ := setup_lookup_reset st d a ha
  obtain ⟨c, hl, hca, hid⟩ := setup_fresh_channel st d a ha
  refine ⟨hc1, hc2, ⟨c, hl, hca, ?_⟩, (setup_fields st d).2.2.2.1⟩
  intro p hp hpc
  have hlt := hids p hp
  rw [hpc] at hlt
  omega

/-- Witness for claim C10 at stAConn, where pva is already tracked and
connected: re-attaching via devB resets it to disconnected/INVALID with a
fresh channel and no disconnect call. -/
theorem claim_C10_witness :
    "pva" ∈ resolve devB stAConn.kind_level ∧
    (∀ p ∈ stAConn.addr_channels, p.2.id < stAConn.nextId) ∧
    lookup stAConn.addr_connected "pva" = some true ∧
    (lookup (setup_alarm_config stAConn devB).addr_connected "pva" =
        some false ∧
      lookup (setup_alarm_config stAConn devB).addr_severity "pva" =
        some AlarmLevel.INVALID ∧
      (∃ c, lookup (setup_alarm_config stAConn devB).addr_channels "pva" =
          some c ∧
        c.address = "pva" ∧ ∀ p ∈ stAConn.addr_channels, p.2 ≠ c) ∧
      (setup_alarm_config stAConn devB).disconnectCalls =
        stAConn.disconnectCalls) :=
  ⟨by decide, by decide, by decide,
    claim_C10 stAConn devB "pva" (by decide) (by decide)⟩

/-! ## Claim C7 -/

/-- Claim C7 counterexample: with the transport rejecting pva, attaching
devPAQ (addresses pvp, pva, pvq in that order) is a hard failure: the
attach returns an error (the exception propagates out of add_device), the
address after the failing one is neither tracked nor subscribed, and only
the first address ever received a connect call. -/
theorem claim_C7_counterexample :
    isErrorE c7res = true ∧
    lookup (errStateOf c7res).addr_connected "pvq" = none ∧
    lookup (errStateOf c7res).addr_connected "pvp" = some false ∧
    lookup (errStateOf c7res).addr_connected "pva" = some false ∧
    (errStateOf c7res).connectCalls = [0] := by decide

theorem connectLoopF_error (ok : String → Bool) (chs1 : List Channel) :
    ∀ (st : AlarmState) (ch : Channel) (chs2 : List Channel),
      (∀ c ∈ chs1, ok c.address = true) → ok ch.address = false →
      ∃ e, connectLoopF ok st (chs1 ++ ch :: chs2) = Except.error e ∧
        lookup e.addr_connected ch.address = some false ∧
        lookup e.addr_severity ch.address = some AlarmLevel.INVALID ∧
        ∀ b, b ∉ keysOf st.addr_connected →
          (∀ c ∈ chs1, c.address ≠ b) → ch.address ≠ b →
          lookup e.addr_connected b = none := by
  induction chs1 with
  | nil =>
    intro st ch chs2 _ hko
    refine ⟨{ st with
        addr_channels := assocInsert st.addr_channels ch.address ch
        addr_connected := assocInsert st.addr_connected ch.address false
        addr_severity :=
          assocInsert st.addr_severity ch.address AlarmLevel.INVALID },
      ?_, lookup_insert_self _ _ _, lookup_insert_self _ _ _, ?_⟩
    · show connectLoopF ok st (ch :: chs2) = _
      simp [connectLoopF, hko]
    · intro b hb _ hchb
      show lookup (assocInsert st.addr_connected ch.address false) b = none
      rw [lookup_insert_ne _ _ _ _ (fun hh => hchb hh.symm)]
      exact lookup_eq_none _ _ hb
  | cons c0 rest ih =>
    intro st ch chs2 h1 hko
    have hc0 : ok c0.address = true := h1 c0 (List.mem_cons_self _ _)
    obtain ⟨e, he, hl1, hl2, hl3⟩ := ih
      { st with
        addr_channels := assocInsert st.addr_channels c0.address c0
        addr_connected := assocInsert st.addr_connected c0.address false
        addr_severity :=
          assocInsert st.addr_severity c0.address AlarmLevel.INVALID
        connectCalls := st.connectCalls ++ [c0.id] }
      ch chs2 (fun c hc => h1 c (List.mem_cons_of_mem _ hc)) hko
    refine ⟨e, ?_, hl1, hl2, ?_⟩
    · show connectLoopF ok st (c0 :: (rest ++ ch :: chs2)) = Except.error e
      simp only [connectLoopF, hc0]
      exact he
    · intro b hb hrest hchb
      apply hl3 b ?_ (fun c hc => hrest c (List.mem_cons_of_mem _ hc)) hchb
      intro hbmem
      rcases (mem_keysOf_insert st.addr_connected c0.address b false).mp
        hbmem with hh | hh
      · exact hb hh
      · exact hrest c0 (List.mem_cons_self _ _) hh.symm

/-- Claim C7 amended: a subscription-open failure during attach is a hard
failure that propagates to the caller and aborts the attach loop: the
addresses after the first failing one are neither tracked nor subscribed;
only the failing address itself is left tracked as a disconnected channel
(connected = false, severity = INVALID). -/
theorem claim_C7_amended (ok : String → Bool) (st : AlarmState) (d : Device)
    (a : String) (pre post : List String)
    (hres : resolve d st.kind_level = pre ++ a :: post)
    (hpre : ∀ b ∈ pre, ok b = true) (hfail : ok a = false) :
    ∃ e, setup_alarm_config_f ok st d = Except.error e ∧
      lookup e.addr_connected a = some false ∧
      lookup e.addr_severity a = some AlarmLevel.INVALID ∧
      ∀ b ∈ post, b ∉ keysOf st.addr_connected → b ∉ pre → b ≠ a →
        lookup e.addr_connected b = none := by
  have hch : mkChannels (resolve d st.kind_level) st.nextId =
      mkChannels pre st.nextId ++
        Channel.mk a (st.nextId + pre.length) ::
          mkChannels post (st.nextId + pre.length + 1) := by
    rw [hres, mkChannels_append]
    rfl
  have hpre' : ∀ c ∈ mkChannels pre st.nextId, ok c.address = true :=
    fun c hc => hpre c.address (mem_mkChannels c _ _ hc).1
  obtain ⟨e, he, hl1, hl2, hl3⟩ := connectLoopF_error ok
    (mkChannels pre st.nextId)
    { st with
      device_channels := assocInsert st.device_channels d.name
        (mkChannels pre st.nextId ++
          Channel.mk a (st.nextId + pre.length) ::
            mkChannels post (st.nextId + pre.length + 1))
      nextId := st.nextId +
        (mkChannels pre st.nextId ++
          Channel.mk a (st.nextId + pre.length) ::
            mkChannels post (st.nextId + pre.length + 1)).length }
    (Channel.mk a (st.nextId + pre.length))
    (mkChannels post (st.nextId + pre.length + 1))
    hpre' hfail
  refine ⟨e, ?_, hl1, hl2, ?_⟩
  · have hrw : setup_alarm_config_f ok st d =
        connectLoopF ok
          { st with
            device_channels := assocInsert st.device_channels d.name
              (mkChannels (resolve d st.kind_level) st.nextId)
            nextId := st.nextId +
              (mkChannels (resolve d st.kind_level) st.nextId).length }
          (mkChannels (resolve d st.kind_level) st.nextId) := rfl
    rw [hrw, hch]
    exact he
  · intro b hbpost hbkeys hbpre hba
    exact hl3 b hbkeys
      (fun c hc hcb => hbpre (hcb ▸ (mem_mkChannels c _ _ hc).1))
      (fun hh => hba hh.symm)

/-- Witness for the amended claim C7: attaching devPAQ with the transport
rejecting its middle address pva errors out, leaving pva tracked as
disconnected and pvq untracked. -/
theorem claim_C7_witness :
    resolve devPAQ initState.kind_level = ["pvp"] ++ "pva" :: ["pvq"] ∧
    (∀ b ∈ ["pvp"], okNotA b = true) ∧ okNotA "pva" = false ∧
    (∃ e, setup_alarm_config_f okNotA initState devPAQ = Except.error e ∧
      lookup e.addr_connected "pva" = some false ∧
      lookup e.addr_severity "pva" = some AlarmLevel.INVALID ∧
      ∀ b ∈ ["pvq"], b ∉ keysOf initState.addr_connected → b ∉ ["pvp"] →
        b ≠ "pva" → lookup e.addr_connected b = none) :=
  ⟨by decide, by decide, by decide,
    claim_C7_amended okNotA initState devPAQ "pva" ["pvp"] ["pvq"]
      (by decide) (by decide) (by decide)⟩

end Typhos
